import Mathlib

/-!
Shallow embedding of the teryt-autocomplete core (src/loaders.go, src/main.go):
the CSV dataset loader and the in-memory street/city autocomplete search.

Modelling conventions:
* Go strings are modelled as `List Char` (`Str`).  Go compares strings by
  UTF-8 bytes; for valid UTF-8 that order coincides with lexicographic
  code-point order, which is the `<` of `List Char` used here.
* `strings.ToLower` is modelled by `Char.toLower` mapped over the string
  (faithful on ASCII, which is all the proofs below depend on).
* `strings.TrimSpace` is modelled over the Latin-1 white-space set that
  `unicode.IsSpace` special-cases; the exotic Unicode space code points do
  not affect any property proved here.
* Go `int` is modelled as `Int`; `strconv.Atoi` clamps to the int64 range
  on overflow and yields 0 on a syntax error, exactly as the `_`-ignored
  error makes the Go code behave.
* `sort.Slice(results, less)` guarantees only an ordering consistent with
  `less`; it is modelled by `List.mergeSort` with `le a b := !less b a`,
  one such ordering.
* `make([]T, 0, limit)` panics in Go when `limit` is negative; the two
  search functions that execute it therefore return `Option`, with `none`
  modelling that panic.  All other code paths are total.
* File I/O is out of scope: the loaders take the file contents as a `Str`.
-/

abbrev Str := List Char

/-- White space stripped by Go `strings.TrimSpace` (Latin-1 part of
`unicode.IsSpace`). -/
def isGoSpace (c : Char) : Bool :=
  c == ' ' || c == '\t' || c == '\n' || c == '\x0b' || c == '\x0c' ||
    c == '\r' || c == '\u0085' || c == '\u00A0'

/-- Model of `strings.TrimSpace`. -/
def trimSpace (s : Str) : Str :=
  ((s.dropWhile isGoSpace).reverse.dropWhile isGoSpace).reverse

/-- Model of `strings.Trim(s, string(c))`: strip leading and trailing runs
of the character `c`. -/
def trimChar (c : Char) (s : Str) : Str :=
  ((s.dropWhile (fun x => decide (x = c))).reverse.dropWhile
    (fun x => decide (x = c))).reverse

/-- Model of `strings.ToLower` (ASCII case mapping). -/
def toLowerStr (s : Str) : Str := s.map Char.toLower

/-- Model of `strings.Contains s q`: `q` occurs as a contiguous substring
of `s`. -/
def strContains (s q : Str) : Bool :=
  q.isPrefixOf s ||
    match s with
    | [] => false
    | _ :: rest => strContains rest q

/-- Model of Go string `<` (byte-lexicographic, equivalently code-point
lexicographic for valid UTF-8). -/
def strLt (a b : Str) : Bool := decide (a < b)

/-- StreetRecord from src/main.go (one ULIC street entry). -/
structure StreetRecord where
  WOJ : Int
  POW : Int
  GMI : Int
  RODZGMI : Int
  SYM : Int
  SYMUL : Int
  CECHA : Str
  NAZWA1 : Str
  NAZWA2 : Str
  FullName : Str
deriving DecidableEq

/-- CityRecord from src/main.go (one SIMC locality entry). -/
structure CityRecord where
  WOJ : Int
  POW : Int
  GMI : Int
  RODZGMI : Int
  RM : Int
  MZ : Int
  NAZWA : Str
  SYM : Int
  SYMPOD : Int
deriving DecidableEq

/-- AutocompleteService state: the two loaded record sequences.  The
RWMutex only serialises loads against queries and is not part of the
functional behaviour modelled here. -/
structure AutocompleteService where
  streets : List StreetRecord
  cities : List CityRecord
deriving DecidableEq

/-- One entry of the `GetGMIForStreet` result (the Go code builds a map
with the keys woj, pow, gmi). -/
structure GMIEntry where
  woj : Int
  pow : Int
  gmi : Int
deriving DecidableEq

/-- Decimal digit character, as produced by `fmt.Sprintf("%d", _)`. -/
def digitChar (d : Nat) : Char := Char.ofNat (48 + d)

/-- Decimal digits of a natural number, most significant first. -/
def natDigits (n : Nat) : Str :=
  if n < 10 then [digitChar n]
  else natDigits (n / 10) ++ [digitChar (n % 10)]
termination_by n
decreasing_by exact Nat.div_lt_self (by omega) (by omega)

/-- Model of `fmt.Sprintf("%d", n)` for a Go int. -/
def renderInt (n : Int) : Str :=
  if n < 0 then '-' :: natDigits (-n).toNat else natDigits n.toNat

/-- Dedup key `fmt.Sprintf("%d-%d-%d", woj, pow, gmi)` used by
`GetGMIForStreet`. -/
def gmiKey (w p g : Int) : Str :=
  renderInt w ++ '-' :: renderInt p ++ '-' :: renderInt g

/-- Dedup key `fmt.Sprintf("%s-%d-%d-%d", NAZWA, WOJ, POW, GMI)` used by
`SearchCities`. -/
def cityKey (c : CityRecord) : Str :=
  c.NAZWA ++ '-' :: gmiKey c.WOJ c.POW c.GMI

/-- The shared shape of the two search loops in src/main.go: scan the
stored sequence in order, break once `limit` results have been collected,
keep the records satisfying `p`, and drop a record whose dedup key was
already seen (`seen` models the Go `map[string]bool`). -/
def scanLoop {α : Type} (p : α → Bool) (key : α → Str) (limit : Int) :
    List α → List α → List Str → List α
  | [], acc, _ => acc
  | x :: rest, acc, seen =>
    if limit ≤ (acc.length : Int) then acc
    else if p x then
      if key x ∈ seen then scanLoop p key limit rest acc seen
      else scanLoop p key limit rest (acc ++ [x]) (seen ++ [key x])
    else scanLoop p key limit rest acc seen

/-- First-occurrence deduplication by key, relative to already seen keys
(reference function used to characterise the loops). -/
def dedupKey {α : Type} (key : α → Str) : List α → List Str → List α
  | [], _ => []
  | x :: rest, seen =>
    if key x ∈ seen then dedupKey key rest seen
    else x :: dedupKey key rest (seen ++ [key x])

/-- Match test of `SearchStreets`: the lowercased primary name starts
with or contains the (already lowercased and trimmed) query. -/
def streetMatches (q : Str) (st : StreetRecord) : Bool :=
  q.isPrefixOf (toLowerStr st.NAZWA1) || strContains (toLowerStr st.NAZWA1) q

/-- Body shared by the two ranking comparators of src/main.go: prefix
matches first, ties by case-sensitive name order.  `pa`, `pb` are the two
prefix-match flags, `na`, `nb` the raw names. -/
def groupLt (pa pb : Bool) (na nb : Str) : Bool :=
  if pa && !pb then true
  else if !pa && pb then false
  else strLt na nb

/-- The `sort.Slice` comparator of `SearchStreets`. -/
def streetLt (q : Str) (a b : StreetRecord) : Bool :=
  groupLt (q.isPrefixOf (toLowerStr a.NAZWA1)) (q.isPrefixOf (toLowerStr b.NAZWA1))
    a.NAZWA1 b.NAZWA1

/-- Non-strict version of `streetLt` handed to the sort. -/
def streetLe (q : Str) (a b : StreetRecord) : Bool := !streetLt q b a

/-- SearchStreets from src/main.go.  `none` models the Go panic of
`make([]StreetRecord, 0, limit)` on a negative `limit`; the empty-query
early return precedes that allocation. -/
def SearchStreets (svc : AutocompleteService) (query : Str) (limit : Int) :
    Option (List StreetRecord) :=
  if query = [] then some []
  else if limit < 0 then none
  else
    let q := toLowerStr (trimSpace query)
    some ((scanLoop (streetMatches q) (fun st => st.FullName) limit
      svc.streets [] []).mergeSort (streetLe q))

/-- Administrative filters of `SearchCities`: a record is kept unless a
positive filter value disagrees with the record field. -/
def passFilters (w p g : Int) (c : CityRecord) : Bool :=
  !(decide (0 < w) && decide (c.WOJ ≠ w)) &&
    !(decide (0 < p) && decide (c.POW ≠ p)) &&
    !(decide (0 < g) && decide (c.GMI ≠ g))

/-- Match test of `SearchCities`: an empty (trimmed, lowercased) query
matches everything, otherwise prefix-or-substring on the lowercased name. -/
def cityMatches (q : Str) (c : CityRecord) : Bool :=
  decide (q = []) || q.isPrefixOf (toLowerStr c.NAZWA) ||
    strContains (toLowerStr c.NAZWA) q

/-- The `sort.Slice` comparator of `SearchCities`: plain name order for an
empty query, otherwise prefix group first then name order. -/
def cityLt (q : Str) (a b : CityRecord) : Bool :=
  if q = [] then strLt a.NAZWA b.NAZWA
  else
    groupLt (q.isPrefixOf (toLowerStr a.NAZWA)) (q.isPrefixOf (toLowerStr b.NAZWA))
      a.NAZWA b.NAZWA

/-- Non-strict version of `cityLt` handed to the sort. -/
def cityLe (q : Str) (a b : CityRecord) : Bool := !cityLt q b a

/-- SearchCities from src/main.go.  `none` models the Go panic of
`make([]CityRecord, 0, limit)` on a negative `limit`. -/
def SearchCities (svc : AutocompleteService) (query : Str) (w p g limit : Int) :
    Option (List CityRecord) :=
  if limit < 0 then none
  else
    let q := toLowerStr (trimSpace query)
    some ((scanLoop (fun c => passFilters w p g c && cityMatches q c) cityKey limit
      svc.cities [] []).mergeSort (cityLe q))

/-- The collection loop of `GetGMIForStreet`: exact (lowercased) name
match, dedup by the `gmiKey` string, no limit. -/
def gmiLoop (target : Str) : List StreetRecord → List GMIEntry → List Str → List GMIEntry
  | [], acc, _ => acc
  | st :: rest, acc, seen =>
    if toLowerStr st.NAZWA1 = target then
      if gmiKey st.WOJ st.POW st.GMI ∈ seen then gmiLoop target rest acc seen
      else gmiLoop target rest (acc ++ [⟨st.WOJ, st.POW, st.GMI⟩])
        (seen ++ [gmiKey st.WOJ st.POW st.GMI])
    else gmiLoop target rest acc seen

/-- Reference dedup for `gmiLoop` (records projected to their triples). -/
def gmiDedup : List StreetRecord → List Str → List GMIEntry
  | [], _ => []
  | st :: rest, seen =>
    if gmiKey st.WOJ st.POW st.GMI ∈ seen then gmiDedup rest seen
    else ⟨st.WOJ, st.POW, st.GMI⟩ :: gmiDedup rest (seen ++ [gmiKey st.WOJ st.POW st.GMI])

/-- The `sort.Slice` comparator of `GetGMIForStreet`: lexicographic on
(woj, pow, gmi). -/
def gmiLt (a b : GMIEntry) : Bool :=
  if a.woj ≠ b.woj then decide (a.woj < b.woj)
  else if a.pow ≠ b.pow then decide (a.pow < b.pow)
  else decide (a.gmi < b.gmi)

/-- Non-strict version of `gmiLt` handed to the sort. -/
def gmiLe (a b : GMIEntry) : Bool := !gmiLt b a

/-- GetGMIForStreet from src/main.go. -/
def GetGMIForStreet (svc : AutocompleteService) (streetName : Str) : List GMIEntry :=
  let n := trimSpace streetName
  if n = [] then []
  else (gmiLoop (toLowerStr n) svc.streets [] []).mergeSort gmiLe

/-- Numeric value of a decimal digit character, if it is one. -/
def digitVal (c : Char) : Option Nat :=
  if 48 ≤ c.toNat ∧ c.toNat ≤ 57 then some (c.toNat - 48) else none

/-- Value of a non-empty all-digit string (left fold, most significant
first); `none` as soon as a non-digit appears. -/
def decDigitsGo : Str → Nat → Option Nat
  | [], acc => some acc
  | c :: rest, acc =>
    match digitVal c with
    | some d => decDigitsGo rest (acc * 10 + d)
    | none => none

/-- Parse of an unsigned decimal numeral (`none` when empty or containing
a non-digit). -/
def decNat (s : Str) : Option Nat :=
  if s = [] then none else decDigitsGo s 0

/-- Clamp to the Go int64 range, as `strconv.ParseInt` does on overflow. -/
def clampI64 (n : Int) : Int := max (-(2 ^ 63)) (min (2 ^ 63 - 1) n)

/-- Model of `strconv.Atoi` with the error ignored: optional sign, decimal
digits; syntax errors yield 0, overflow is clamped. -/
def atoi (s : Str) : Int :=
  match s with
  | '+' :: rest =>
    match decNat rest with
    | some n => clampI64 (n : Int)
    | none => 0
  | '-' :: rest =>
    match decNat rest with
    | some n => clampI64 (-(n : Int))
    | none => 0
  | _ =>
    match decNat s with
    | some n => clampI64 (n : Int)
    | none => 0

/-- Field cleanup of the loaders: trim surrounding white space, then strip
surrounding double quotes. -/
def cleanField (f : Str) : Str := trimChar '"' (trimSpace f)

/-- Lines delivered by `readLine` over the whole file contents: split on
newline with every carriage return dropped; a final empty segment (file
ending in a newline, or empty file) produces no line, matching the EOF
behaviour of `readLine`. -/
def fileLines (data : Str) : List Str :=
  let segs := (data.filter (fun c => decide (c ≠ '\r'))).splitOn '\n'
  if segs.getLast? = some [] then segs.dropLast else segs

/-- Construction of a StreetRecord from the 10 cleaned fields of a line
(src/loaders.go, LoadCSV), including the derived display name. -/
def mkStreetRecord (fields : List Str) : StreetRecord :=
  let cecha := fields.getD 6 []
  let nazwa1 := fields.getD 7 []
  let nazwa2 := fields.getD 8 []
  ⟨atoi (fields.getD 0 []), atoi (fields.getD 1 []), atoi (fields.getD 2 []),
    atoi (fields.getD 3 []), atoi (fields.getD 4 []), atoi (fields.getD 5 []),
    cecha, nazwa1, nazwa2,
    if nazwa2 ≠ [] then cecha ++ ' ' :: nazwa1 ++ ' ' :: nazwa2
    else cecha ++ ' ' :: nazwa1⟩

/-- Construction of a CityRecord from the 10 cleaned fields of a line
(src/loaders.go, LoadCitiesCSV). -/
def mkCityRecord (fields : List Str) : CityRecord :=
  ⟨atoi (fields.getD 0 []), atoi (fields.getD 1 []), atoi (fields.getD 2 []),
    atoi (fields.getD 3 []), atoi (fields.getD 4 []), atoi (fields.getD 5 []),
    fields.getD 6 [], atoi (fields.getD 7 []), atoi (fields.getD 8 [])⟩

/-- Per-line outcome of the street loader: `none` for a skipped line (not
exactly 10 semicolon-separated fields, or empty cleaned NAZWA_1). -/
def parseStreetLine (line : Str) : Option StreetRecord :=
  let fields := line.splitOn ';'
  if fields.length = 10 then
    let cleaned := fields.map cleanField
    if cleaned.getD 7 [] = [] then none else some (mkStreetRecord cleaned)
  else none

/-- Per-line outcome of the city loader: `none` for a skipped line (not
exactly 10 semicolon-separated fields, or empty cleaned NAZWA). -/
def parseCityLine (line : Str) : Option CityRecord :=
  let fields := line.splitOn ';'
  if fields.length = 10 then
    let cleaned := fields.map cleanField
    if cleaned.getD 6 [] = [] then none else some (mkCityRecord cleaned)
  else none

/-- The record/skip loop of LoadCSV over the data lines. -/
def loadStreetLines : List Str → List StreetRecord × Nat
  | [] => ([], 0)
  | line :: rest =>
    let fields := line.splitOn ';'
    let r := loadStreetLines rest
    if fields.length ≠ 10 then (r.1, r.2 + 1)
    else
      let cleaned := fields.map cleanField
      if cleaned.getD 7 [] = [] then (r.1, r.2 + 1)
      else (mkStreetRecord cleaned :: r.1, r.2)

/-- The record/skip loop of LoadCitiesCSV over the data lines. -/
def loadCityLines : List Str → List CityRecord × Nat
  | [] => ([], 0)
  | line :: rest =>
    let fields := line.splitOn ';'
    let r := loadCityLines rest
    if fields.length ≠ 10 then (r.1, r.2 + 1)
    else
      let cleaned := fields.map cleanField
      if cleaned.getD 6 [] = [] then (r.1, r.2 + 1)
      else (mkCityRecord cleaned :: r.1, r.2)

/-- LoadCSV from src/loaders.go on the file contents: skip the header
line, then run the record/skip loop. -/
def LoadCSV (data : Str) : List StreetRecord :=
  (loadStreetLines ((fileLines data).drop 1)).1

/-- LoadCitiesCSV from src/loaders.go on the file contents. -/
def LoadCitiesCSV (data : Str) : List CityRecord :=
  (loadCityLines ((fileLines data).drop 1)).1

/-- Scan variant following the words of the spec sentence behind the
bounded-scan claim: every post-filter match counts toward `limit`,
including a match dropped by deduplication (`cnt` counts raw matches).
This is the claimed behaviour, to be compared with `scanLoop`, the
behaviour of the code. -/
def scanRawLimit {α : Type} (p : α → Bool) (key : α → Str) (limit : Int) :
    List α → List α → List Str → Int → List α
  | [], acc, _, _ => acc
  | x :: rest, acc, seen, cnt =>
    if limit ≤ cnt then acc
    else if p x then
      if key x ∈ seen then scanRawLimit p key limit rest acc seen (cnt + 1)
      else scanRawLimit p key limit rest (acc ++ [x]) (seen ++ [key x]) (cnt + 1)
    else scanRawLimit p key limit rest acc seen cnt

/-- Fixture: street record from the spec's concrete scenario (first
Chopina line). -/
def sA : StreetRecord :=
  ⟨12, 34, 56, 1, 100, 200, ("ul.".toList), ("Chopina".toList), [],
    ("ul. Chopina".toList)⟩

/-- Fixture: second Chopina line, same display name, distinct identifiers. -/
def sB : StreetRecord :=
  ⟨12, 34, 56, 1, 101, 201, ("ul.".toList), ("Chopina".toList), [],
    ("ul. Chopina".toList)⟩

/-- Fixture: a street whose name contains but does not start with the
test query. -/
def sC : StreetRecord :=
  ⟨1, 2, 3, 1, 102, 202, ("ul.".toList), ("Nowa Chopina".toList), [],
    ("ul. Nowa Chopina".toList)⟩

/-- Fixture: city in voivodeship 12. -/
def cA : CityRecord := ⟨12, 61, 1, 1, 0, 0, ("Krakow".toList), 950463, 950463⟩

/-- Fixture: city with a similar name in voivodeship 14. -/
def cB : CityRecord := ⟨14, 3, 2, 1, 0, 0, ("Krakowiec".toList), 1, 1⟩

/-- Fixture: second city of voivodeship 12. -/
def cC : CityRecord := ⟨12, 61, 2, 1, 0, 0, ("Zakrakowie".toList), 2, 2⟩

/-- Fixture service used by the witnesses. -/
def svcW : AutocompleteService := ⟨[sA, sB, sC], [cA, cB, cC]⟩

/-- Fixture for the empty-query city ordering: two distinct cities that
share a name but sit in different voivodeships. -/
def c6a : CityRecord := ⟨2, 1, 1, 0, 0, 0, ("Adamowo".toList), 10, 10⟩

/-- Fixture: same name as `c6a`, different voivodeship. -/
def c6b : CityRecord := ⟨1, 1, 1, 0, 0, 0, ("Adamowo".toList), 11, 11⟩

/-- Fixture service for the empty-query ordering counterexample. -/
def svc6 : AutocompleteService := ⟨[], [c6a, c6b]⟩

/-- Fixture: first of two streets sharing a display name. -/
def r9a : StreetRecord := ⟨1, 1, 1, 0, 0, 0, [], ("xa".toList), [], ("F".toList)⟩

/-- Fixture: duplicate display name of `r9a`, matched and dropped by dedup. -/
def r9b : StreetRecord := ⟨2, 2, 2, 0, 0, 0, [], ("xa".toList), [], ("F".toList)⟩

/-- Fixture: third matching street with a fresh display name. -/
def r9c : StreetRecord := ⟨3, 3, 3, 0, 0, 0, [], ("xb".toList), [], ("G".toList)⟩

/-- Fixture service for the limit-counting counterexample. -/
def svc9 : AutocompleteService := ⟨[r9a, r9b, r9c], []⟩

/-- Numeric rank of a prefix-match flag: prefix matches sort before
substring-only matches. -/
def prioOf (p : Bool) : Nat := cond p 0 1

/-- Numeric value of a digit string, used to invert `natDigits`. -/
def digitsToNat (s : Str) : Nat :=
  s.foldl (fun acc c => acc * 10 + (c.toNat - 48)) 0

/-! Order facts about the comparators. -/

theorem strLt_asymm {a b : Str} (h : strLt a b = true) : strLt b a = false := by
  simp only [strLt, decide_eq_true_eq] at h
  simp only [strLt, decide_eq_false_iff_not]
  exact lt_asymm h

theorem strLt_neg_trans {a b c : Str} (h1 : strLt b a = false) (h2 : strLt c b = false) :
    strLt c a = false := by
  simp only [strLt, decide_eq_false_iff_not] at h1 h2 ⊢
  exact fun hca => hca.not_le ((le_of_not_lt h1).trans (le_of_not_lt h2))

theorem strLt_total (a b : Str) : (!strLt b a || !strLt a b) = true := by
  cases h : strLt b a
  · rfl
  · simp [strLt_asymm h]

theorem groupLt_iff {pa pb : Bool} {na nb : Str} :
    groupLt pa pb na nb = true ↔
      (prioOf pa < prioOf pb ∨ (prioOf pa = prioOf pb ∧ strLt na nb = true)) := by
  cases pa <;> cases pb <;> simp [groupLt, prioOf]

theorem groupLt_asymm {pa pb : Bool} {na nb : Str}
    (h : groupLt pa pb na nb = true) : groupLt pb pa nb na = false := by
  cases hba : groupLt pb pa nb na
  · rfl
  · exfalso
    rcases groupLt_iff.1 h with hp | ⟨hp, hlt⟩ <;>
      rcases groupLt_iff.1 hba with hp2 | ⟨hp2, hlt2⟩
    · omega
    · omega
    · omega
    · rw [strLt_asymm hlt] at hlt2
      exact Bool.false_ne_true hlt2

theorem groupLt_neg_trans {pa pb pc : Bool} {na nb nc : Str}
    (h1 : groupLt pb pa nb na = false) (h2 : groupLt pc pb nc nb = false) :
    groupLt pc pa nc na = false := by
  cases hca : groupLt pc pa nc na
  · rfl
  · exfalso
    have h1' := fun h => Bool.false_ne_true (h1 ▸ groupLt_iff.2 h)
    have h2' := fun h => Bool.false_ne_true (h2 ▸ groupLt_iff.2 h)
    rcases groupLt_iff.1 hca with hp | ⟨hp, hlt⟩
    · have hba : ¬ prioOf pb < prioOf pa := fun hh => h1' (Or.inl hh)
      have hcb : ¬ prioOf pc < prioOf pb := fun hh => h2' (Or.inl hh)
      omega
    · have hba : ¬ prioOf pb < prioOf pa := fun hh => h1' (Or.inl hh)
      have hcb : ¬ prioOf pc < prioOf pb := fun hh => h2' (Or.inl hh)
      have hpb : prioOf pb = prioOf pa := by omega
      have hpc : prioOf pc = prioOf pb := by omega
      have hba2 : strLt nb na = false := by
        cases hh : strLt nb na
        · rfl
        · exact absurd (Or.inr ⟨hpb, hh⟩) h1'
      have hcb2 : strLt nc nb = false := by
        cases hh : strLt nc nb
        · rfl
        · exact absurd (Or.inr ⟨hpc, hh⟩) h2'
      rw [strLt_neg_trans hba2 hcb2] at hlt
      exact Bool.false_ne_true hlt

theorem streetLe_trans (q : Str) (a b c : StreetRecord)
    (h1 : streetLe q a b = true) (h2 : streetLe q b c = true) :
    streetLe q a c = true := by
  simp only [streetLe, Bool.not_eq_true', streetLt] at h1 h2 ⊢
  exact groupLt_neg_trans h1 h2

theorem streetLe_total (q : Str) (a b : StreetRecord) :
    (streetLe q a b || streetLe q b a) = true := by
  simp only [streetLe, streetLt]
  cases h : groupLt (List.isPrefixOf q (toLowerStr b.NAZWA1))
      (List.isPrefixOf q (toLowerStr a.NAZWA1)) b.NAZWA1 a.NAZWA1
  · rfl
  · simp [groupLt_asymm h]

theorem cityLe_trans (q : Str) (a b c : CityRecord)
    (h1 : cityLe q a b = true) (h2 : cityLe q b c = true) :
    cityLe q a c = true := by
  simp only [cityLe, Bool.not_eq_true', cityLt] at h1 h2 ⊢
  by_cases hq : q = []
  · simp only [if_pos hq] at h1 h2 ⊢
    exact strLt_neg_trans h1 h2
  · simp only [if_neg hq] at h1 h2 ⊢
    exact groupLt_neg_trans h1 h2

theorem cityLe_total (q : Str) (a b : CityRecord) :
    (cityLe q a b || cityLe q b a) = true := by
  simp only [cityLe, cityLt]
  by_cases hq : q = []
  · simp only [if_pos hq]
    exact strLt_total a.NAZWA b.NAZWA
  · simp only [if_neg hq]
    cases h : groupLt (List.isPrefixOf q (toLowerStr b.NAZWA))
        (List.isPrefixOf q (toLowerStr a.NAZWA)) b.NAZWA a.NAZWA
    · rfl
    · simp [groupLt_asymm h]

theorem gmiLt_iff {a b : GMIEntry} :
    gmiLt a b = true ↔
      (a.woj < b.woj ∨ (a.woj = b.woj ∧
        (a.pow < b.pow ∨ (a.pow = b.pow ∧ a.gmi < b.gmi)))) := by
  unfold gmiLt
  split_ifs with h1 h2 <;> simp <;> omega

theorem gmiLe_trans (a b c : GMIEntry)
    (h1 : gmiLe a b = true) (h2 : gmiLe b c = true) : gmiLe a c = true := by
  simp only [gmiLe, Bool.not_eq_true'] at h1 h2 ⊢
  have H1 : ¬ (b.woj < a.woj ∨ (b.woj = a.woj ∧
      (b.pow < a.pow ∨ (b.pow = a.pow ∧ b.gmi < a.gmi)))) := by
    intro h
    exact absurd (gmiLt_iff.2 h) (by simp [h1])
  have H2 : ¬ (c.woj < b.woj ∨ (c.woj = b.woj ∧
      (c.pow < b.pow ∨ (c.pow = b.pow ∧ c.gmi < b.gmi)))) := by
    intro h
    exact absurd (gmiLt_iff.2 h) (by simp [h2])
  cases hca : gmiLt c a
  · rfl
  · have := gmiLt_iff.1 hca
    omega

theorem gmiLe_total (a b : GMIEntry) : (gmiLe a b || gmiLe b a) = true := by
  simp only [gmiLe]
  cases hba : gmiLt b a
  · simp
  · have hba' := gmiLt_iff.1 hba
    have hab : gmiLt a b = false := by
      cases hab : gmiLt a b
      · rfl
      · have := gmiLt_iff.1 hab
        omega
    simp [hab]

theorem strContains_of_isPrefixOf {s q : Str} (h : q.isPrefixOf s = true) :
    strContains s q = true := by
  cases s <;> simp [strContains, h]

/-! Characterisation of the scan loops: filter, first-occurrence dedup,
truncation at the limit. -/

theorem scanLoop_eq {α : Type} (p : α → Bool) (key : α → Str) (limit : Int)
    (xs : List α) : ∀ (acc : List α) (seen : List Str),
    scanLoop p key limit xs acc seen =
      acc ++ (dedupKey key (xs.filter p) seen).take (limit - (acc.length : Int)).toNat := by
  induction xs with
  | nil => intro acc seen; simp [scanLoop, dedupKey]
  | cons x rest ih =>
    intro acc seen
    by_cases hl : limit ≤ (acc.length : Int)
    · have ht : (limit - (acc.length : Int)).toNat = 0 := by omega
      simp [scanLoop, hl, ht]
    · by_cases hp : p x = true
      · by_cases hk : key x ∈ seen
        · have hstep : scanLoop p key limit (x :: rest) acc seen =
              scanLoop p key limit rest acc seen := by
            simp [scanLoop, hl, hp, hk]
          rw [hstep, ih acc seen]
          simp [hp, hk, dedupKey]
        · have hstep : scanLoop p key limit (x :: rest) acc seen =
              scanLoop p key limit rest (acc ++ [x]) (seen ++ [key x]) := by
            simp [scanLoop, hl, hp, hk]
          rw [hstep, ih (acc ++ [x]) (seen ++ [key x])]
          have ht : (limit - (acc.length : Int)).toNat =
              (limit - (((acc ++ [x]).length : Nat) : Int)).toNat + 1 := by
            simp only [List.length_append, List.length_cons, List.length_nil]
            omega
          rw [List.filter_cons_of_pos hp]
          have hd : dedupKey key (x :: rest.filter p) seen =
              x :: dedupKey key (rest.filter p) (seen ++ [key x]) := by
            simp [dedupKey, hk]
          rw [hd, ht, List.take_succ_cons]
          simp
      · have hstep : scanLoop p key limit (x :: rest) acc seen =
            scanLoop p key limit rest acc seen := by
          simp [scanLoop, hl, hp]
        rw [hstep, ih acc seen, List.filter_cons_of_neg (by simp [hp])]

theorem scanLoop_run {α : Type} (p : α → Bool) (key : α → Str) (limit : Int)
    (xs : List α) : scanLoop p key limit xs [] [] =
      (dedupKey key (xs.filter p) []).take limit.toNat := by
  rw [scanLoop_eq]
  simp

theorem dedupKey_mem {α : Type} {key : α → Str} :
    ∀ {l : List α} {seen : List Str} {x : α},
      x ∈ dedupKey key l seen → x ∈ l ∧ key x ∉ seen := by
  intro l
  induction l with
  | nil => intro seen x hx; simp [dedupKey] at hx
  | cons y rest ih =>
    intro seen x hx
    by_cases hk : key y ∈ seen
    · rw [show dedupKey key (y :: rest) seen = dedupKey key rest seen from by
        simp [dedupKey, hk]] at hx
      obtain ⟨h1, h2⟩ := ih hx
      exact ⟨List.mem_cons_of_mem _ h1, h2⟩
    · rw [show dedupKey key (y :: rest) seen =
          y :: dedupKey key rest (seen ++ [key y]) from by simp [dedupKey, hk]] at hx
      rcases List.mem_cons.1 hx with rfl | hx'
      · exact ⟨List.mem_cons_self _ _, hk⟩
      · obtain ⟨h1, h2⟩ := ih hx'
        exact ⟨List.mem_cons_of_mem _ h1, fun hmem => h2 (List.mem_append_left _ hmem)⟩

theorem dedupKey_find {α : Type} {key : α → Str} :
    ∀ {l : List α} {seen : List Str} {x : α}, x ∈ dedupKey key l seen →
      l.find? (fun y => decide (key y = key x)) = some x := by
  intro l
  induction l with
  | nil => intro seen x hx; simp [dedupKey] at hx
  | cons y rest ih =>
    intro seen x hx
    by_cases hk : key y ∈ seen
    · rw [show dedupKey key (y :: rest) seen = dedupKey key rest seen from by
        simp [dedupKey, hk]] at hx
      have hne : key y ≠ key x := by
        intro he
        exact (dedupKey_mem hx).2 (he ▸ hk)
      rw [List.find?_cons_of_neg _ (by simp [hne])]
      exact ih hx
    · rw [show dedupKey key (y :: rest) seen =
          y :: dedupKey key rest (seen ++ [key y]) from by simp [dedupKey, hk]] at hx
      rcases List.mem_cons.1 hx with rfl | hx'
      · exact List.find?_cons_of_pos _ (by simp)
      · have hne : key y ≠ key x := by
          intro he
          exact (dedupKey_mem hx').2 (List.mem_append_right _ (by simp [he]))
        rw [List.find?_cons_of_neg _ (by simp [hne])]
        exact ih hx'

theorem dedupKey_pairwise {α : Type} {key : α → Str} :
    ∀ (l : List α) (seen : List Str),
      (dedupKey key l seen).Pairwise (fun a b => key a ≠ key b) := by
  intro l
  induction l with
  | nil => intro seen; simp [dedupKey]
  | cons y rest ih =>
    intro seen
    by_cases hk : key y ∈ seen
    · rw [show dedupKey key (y :: rest) seen = dedupKey key rest seen from by
        simp [dedupKey, hk]]
      exact ih seen
    · rw [show dedupKey key (y :: rest) seen =
          y :: dedupKey key rest (seen ++ [key y]) from by simp [dedupKey, hk]]
      refine List.Pairwise.cons ?_ (ih _)
      intro b hb he
      exact (dedupKey_mem hb).2 (List.mem_append_right _ (by simp [he.symm]))

theorem dedupKey_complete {α : Type} {key : α → Str} :
    ∀ {l : List α} {seen : List Str} {x : α}, x ∈ l → key x ∉ seen →
      ∃ y ∈ dedupKey key l seen, key y = key x := by
  intro l
  induction l with
  | nil => intro seen x hx; exact absurd hx (List.not_mem_nil x)
  | cons y rest ih =>
    intro seen x hx hns
    by_cases hk : key y ∈ seen
    · rw [show dedupKey key (y :: rest) seen = dedupKey key rest seen from by
        simp [dedupKey, hk]]
      rcases List.mem_cons.1 hx with rfl | hx'
      · exact absurd hk hns
      · exact ih hx' hns
    · rw [show dedupKey key (y :: rest) seen =
          y :: dedupKey key rest (seen ++ [key y]) from by simp [dedupKey, hk]]
      by_cases hxy : key x = key y
      · exact ⟨y, List.mem_cons_self _ _, hxy.symm⟩
      · rcases List.mem_cons.1 hx with rfl | hx'
        · exact absurd rfl hxy
        · obtain ⟨z, hz, hzx⟩ := ih hx' (by
            intro hmem
            rcases List.mem_append.1 hmem with h | h
            · exact hns h
            · exact hxy (List.mem_singleton.1 h))
          exact ⟨z, List.mem_cons_of_mem _ hz, hzx⟩

theorem gmiDedup_eq_map : ∀ (l : List StreetRecord) (seen : List Str),
    gmiDedup l seen =
      (dedupKey (fun st => gmiKey st.WOJ st.POW st.GMI) l seen).map
        (fun st => ⟨st.WOJ, st.POW, st.GMI⟩) := by
  intro l
  induction l with
  | nil => intro seen; simp [gmiDedup, dedupKey]
  | cons st rest ih =>
    intro seen
    by_cases hk : gmiKey st.WOJ st.POW st.GMI ∈ seen
    · simp [gmiDedup, dedupKey, hk, ih]
    · simp [gmiDedup, dedupKey, hk, ih]

theorem gmiLoop_eq (target : Str) (xs : List StreetRecord) :
    ∀ (acc : List GMIEntry) (seen : List Str),
    gmiLoop target xs acc seen =
      acc ++ gmiDedup (xs.filter (fun st => decide (toLowerStr st.NAZWA1 = target))) seen := by
  induction xs with
  | nil => intro acc seen; simp [gmiLoop, gmiDedup]
  | cons st rest ih =>
    intro acc seen
    by_cases hm : toLowerStr st.NAZWA1 = target
    · by_cases hk : gmiKey st.WOJ st.POW st.GMI ∈ seen
      · have hstep : gmiLoop target (st :: rest) acc seen =
            gmiLoop target rest acc seen := by
          simp [gmiLoop, hm, hk]
        rw [hstep, ih, List.filter_cons_of_pos (by simp [hm])]
        simp [gmiDedup, hk]
      · have hstep : gmiLoop target (st :: rest) acc seen =
            gmiLoop target rest (acc ++ [⟨st.WOJ, st.POW, st.GMI⟩])
              (seen ++ [gmiKey st.WOJ st.POW st.GMI]) := by
          simp [gmiLoop, hm, hk]
        rw [hstep, ih, List.filter_cons_of_pos (by simp [hm])]
        simp [gmiDedup, hk]
    · have hstep : gmiLoop target (st :: rest) acc seen =
          gmiLoop target rest acc seen := by
        simp [gmiLoop, hm]
      rw [hstep, ih, List.filter_cons_of_neg (by simp [hm])]

/-! Injectivity of the sprintf-style dedup keys. -/

theorem digitChar_toNat : ∀ d : Nat, d < 10 → (digitChar d).toNat = 48 + d := by
  decide

theorem digitChar_ne_dash : ∀ d : Nat, d < 10 → digitChar d ≠ '-' := by
  decide

theorem natDigits_ne_nil (n : Nat) : natDigits n ≠ [] := by
  rw [natDigits]
  split
  · simp
  · simp

theorem natDigits_no_dash : ∀ n : Nat, '-' ∉ natDigits n := by
  intro n
  induction n using Nat.strong_induction_on with
  | _ n ih =>
    rw [natDigits]
    by_cases h : n < 10
    · rw [if_pos h]
      intro hm
      exact digitChar_ne_dash n h (List.mem_singleton.1 hm).symm
    · rw [if_neg h]
      intro hm
      rcases List.mem_append.1 hm with h1 | h1
      · exact ih (n / 10) (Nat.div_lt_self (by omega) (by omega)) h1
      · exact digitChar_ne_dash (n % 10) (Nat.mod_lt _ (by omega))
          (List.mem_singleton.1 h1).symm

theorem digitsToNat_natDigits : ∀ n : Nat, digitsToNat (natDigits n) = n := by
  intro n
  induction n using Nat.strong_induction_on with
  | _ n ih =>
    rw [natDigits]
    by_cases h : n < 10
    · rw [if_pos h]
      simp [digitsToNat, digitChar_toNat n h]
    · rw [if_neg h]
      have hdiv := ih (n / 10) (Nat.div_lt_self (by omega) (by omega))
      unfold digitsToNat at hdiv ⊢
      rw [List.foldl_append, hdiv]
      simp only [List.foldl_cons, List.foldl_nil,
        digitChar_toNat (n % 10) (Nat.mod_lt _ (by omega))]
      omega

theorem natDigits_inj {a b : Nat} (h : natDigits a = natDigits b) : a = b := by
  have ha := digitsToNat_natDigits a
  rw [h, digitsToNat_natDigits] at ha
  exact ha.symm

theorem renderInt_tail_no_dash (n : Int) :
    ∃ h t, renderInt n = h :: t ∧ '-' ∉ t := by
  unfold renderInt
  split
  · exact ⟨'-', natDigits (-n).toNat, rfl, natDigits_no_dash _⟩
  · cases hnd : natDigits n.toNat with
    | nil => exact absurd hnd (natDigits_ne_nil _)
    | cons h t =>
      refine ⟨h, t, rfl, fun hm => natDigits_no_dash n.toNat ?_⟩
      rw [hnd]
      exact List.mem_cons_of_mem _ hm

theorem renderInt_inj {a b : Int} (h : renderInt a = renderInt b) : a = b := by
  unfold renderInt at h
  by_cases ha : a < 0 <;> by_cases hb : b < 0
  · rw [if_pos ha, if_pos hb] at h
    injection h with h1 h2
    have := natDigits_inj h2
    omega
  · rw [if_pos ha, if_neg hb] at h
    exact absurd (h ▸ List.mem_cons_self '-' (natDigits (-a).toNat))
      (natDigits_no_dash b.toNat)
  · rw [if_neg ha, if_pos hb] at h
    exact absurd (h.symm ▸ List.mem_cons_self '-' (natDigits (-b).toNat))
      (natDigits_no_dash a.toNat)
  · rw [if_neg ha, if_neg hb] at h
    have := natDigits_inj h
    omega

theorem append_dash_inj : ∀ (a b u v : Str), '-' ∉ a → '-' ∉ b →
    a ++ '-' :: u = b ++ '-' :: v → a = b ∧ u = v := by
  intro a
  induction a with
  | nil =>
    intro b u v _ hb h
    cases b with
    | nil => simpa using h
    | cons y bs =>
      simp only [List.nil_append, List.cons_append, List.cons.injEq] at h
      exfalso
      apply hb
      rw [← h.1]
      exact List.mem_cons_self _ _
  | cons x as ih =>
    intro b u v ha hb h
    cases b with
    | nil =>
      simp only [List.cons_append, List.nil_append, List.cons.injEq] at h
      exfalso
      apply ha
      rw [h.1]
      exact List.mem_cons_self _ _
    | cons y bs =>
      simp only [List.cons_append, List.cons.injEq] at h
      obtain ⟨hxy, hrest⟩ := h
      obtain ⟨h1, h2⟩ := ih bs u v (fun hm => ha (List.mem_cons_of_mem _ hm))
        (fun hm => hb (List.mem_cons_of_mem _ hm)) hrest
      exact ⟨by rw [hxy, h1], h2⟩

theorem render_dash_inj {a b : Int} {u v : Str}
    (h : renderInt a ++ '-' :: u = renderInt b ++ '-' :: v) : a = b ∧ u = v := by
  obtain ⟨ha, ta, hea, hta⟩ := renderInt_tail_no_dash a
  obtain ⟨hb, tb, heb, htb⟩ := renderInt_tail_no_dash b
  rw [hea, heb] at h
  simp only [List.cons_append, List.cons.injEq] at h
  obtain ⟨hh, ht⟩ := h
  obtain ⟨h1, h2⟩ := append_dash_inj ta tb u v hta htb ht
  refine ⟨renderInt_inj ?_, h2⟩
  rw [hea, heb, hh, h1]

theorem gmiKey_inj {w p g w' p' g' : Int}
    (h : gmiKey w p g = gmiKey w' p' g') : w = w' ∧ p = p' ∧ g = g' := by
  unfold gmiKey at h
  simp only [List.cons_append, List.append_assoc] at h
  obtain ⟨h1, h2⟩ := render_dash_inj h
  obtain ⟨h3, h4⟩ := render_dash_inj h2
  exact ⟨h1, h3, renderInt_inj h4⟩

/-! Canonical forms of the two search operations. -/

theorem SearchStreets_eq {svc : AutocompleteService} {q : Str} {limit : Int}
    {res : List StreetRecord} (hq : q ≠ [])
    (hres : SearchStreets svc q limit = some res) :
    res = ((dedupKey (fun st => st.FullName)
        (svc.streets.filter (streetMatches (toLowerStr (trimSpace q)))) []).take
          limit.toNat).mergeSort (streetLe (toLowerStr (trimSpace q))) := by
  unfold SearchStreets at hres
  rw [if_neg hq] at hres
  by_cases hl : limit < 0
  · rw [if_pos hl] at hres
    exact absurd hres (by simp)
  · rw [if_neg hl] at hres
    injection hres with h
    rw [← h, scanLoop_run]

theorem SearchCities_eq {svc : AutocompleteService} {q : Str} {w p g limit : Int}
    {res : List CityRecord}
    (hres : SearchCities svc q w p g limit = some res) :
    res = ((dedupKey cityKey (svc.cities.filter (fun c =>
        passFilters w p g c && cityMatches (toLowerStr (trimSpace q)) c)) []).take
          limit.toNat).mergeSort (cityLe (toLowerStr (trimSpace q))) := by
  unfold SearchCities at hres
  by_cases hl : limit < 0
  · rw [if_pos hl] at hres
    exact absurd hres (by simp)
  · rw [if_neg hl] at hres
    injection hres with h
    rw [← h, scanLoop_run]

theorem getD_map_clean (l : List Str) (i : Nat) (h : i < l.length) :
    (l.map cleanField).getD i [] = cleanField (l.getD i []) := by
  rw [List.getD_eq_getElem?_getD, List.getD_eq_getElem?_getD, List.getElem?_map,
    List.getElem?_eq_getElem h]
  simp

/-- C1: the spec promises that every query operation is total and that a
zero or negative limit yields an empty result.  The code keeps that
promise for zero and positive limits, but a negative limit reaches
`make([]T, 0, limit)`, which panics in Go (modelled by `none`): street
search panics for every non-empty query, city search for every query. -/
theorem query_totality_behavior :
    (∀ (svc : AutocompleteService) (q : Str) (w p g : Int),
        SearchStreets svc q 0 = some [] ∧ SearchCities svc q w p g 0 = some [])
    ∧ (∀ (svc : AutocompleteService) (q : Str) (w p g limit : Int), 0 ≤ limit →
        (SearchStreets svc q limit).isSome = true ∧
          (SearchCities svc q w p g limit).isSome = true)
    ∧ (∀ (svc : AutocompleteService) (q : Str) (limit : Int), q ≠ [] → limit < 0 →
        SearchStreets svc q limit = none)
    ∧ (∀ (svc : AutocompleteService) (q : Str) (w p g limit : Int), limit < 0 →
        SearchCities svc q w p g limit = none) := by
  refine ⟨?_, ?_, ?_, ?_⟩
  · intro svc q w p g
    constructor
    · unfold SearchStreets
      by_cases hq : q = []
      · rw [if_pos hq]
      · rw [if_neg hq, if_neg (by omega)]
        simp [scanLoop_run]
    · unfold SearchCities
      rw [if_neg (by omega)]
      simp [scanLoop_run]
  · intro svc q w p g limit hl
    constructor
    · unfold SearchStreets
      by_cases hq : q = []
      · rw [if_pos hq]; rfl
      · rw [if_neg hq, if_neg (by omega)]; rfl
    · unfold SearchCities
      rw [if_neg (by omega)]; rfl
  · intro svc q limit hq hl
    unfold SearchStreets
    rw [if_neg hq, if_pos hl]
  · intro svc q w p g limit hl
    unfold SearchCities
    rw [if_pos hl]

unseal List.merge List.mergeSort natDigits in
theorem query_totality_behavior_witness :
    SearchStreets svcW ("Chopina".toList) (-1) = none ∧
    SearchCities svcW [] 0 0 0 (-1) = none ∧
    SearchStreets svcW ("Chopina".toList) 0 = some [] :=
  ⟨query_totality_behavior.2.2.1 svcW ("Chopina".toList) (-1) (by decide) (by decide),
   query_totality_behavior.2.2.2 svcW [] 0 0 0 (-1) (by decide),
   (query_totality_behavior.1 svcW ("Chopina".toList) 0 0 0).1⟩

/-- C3: the loader loops are exactly `filterMap` of the per-line parse
(one record per surviving line, source order preserved, skipped lines do
not abort the rest), and a line parses successfully precisely when it
splits into exactly 10 semicolon-separated fields whose required name
field (index 7 for streets, 6 for cities) is non-empty after cleanup. -/
theorem loader_per_line_spec :
    (∀ lines : List Str, (loadStreetLines lines).1 = lines.filterMap parseStreetLine)
    ∧ (∀ lines : List Str, (loadCityLines lines).1 = lines.filterMap parseCityLine)
    ∧ (∀ line : Str, (parseStreetLine line).isSome = true ↔
        ((line.splitOn ';').length = 10 ∧
          cleanField ((line.splitOn ';').getD 7 []) ≠ []))
    ∧ (∀ line : Str, (parseCityLine line).isSome = true ↔
        ((line.splitOn ';').length = 10 ∧
          cleanField ((line.splitOn ';').getD 6 []) ≠ []))
    ∧ (∀ data : Str, LoadCSV data = ((fileLines data).drop 1).filterMap parseStreetLine)
    ∧ (∀ data : Str, LoadCitiesCSV data = ((fileLines data).drop 1).filterMap parseCityLine) := by
  have hs : ∀ lines : List Str,
      (loadStreetLines lines).1 = lines.filterMap parseStreetLine := by
    intro lines
    induction lines with
    | nil => simp [loadStreetLines]
    | cons line rest ih =>
      simp only [loadStreetLines]
      by_cases h10 : (line.splitOn ';').length = 10
      · rw [if_neg (by omega)]
        by_cases hname : ((line.splitOn ';').map cleanField).getD 7 [] = []
        · rw [if_pos hname]
          have hp : parseStreetLine line = none := by
            simp only [parseStreetLine, if_pos h10, if_pos hname]
          rw [List.filterMap_cons, hp]
          exact ih
        · rw [if_neg hname]
          have hp : parseStreetLine line =
              some (mkStreetRecord ((line.splitOn ';').map cleanField)) := by
            simp only [parseStreetLine, if_pos h10, if_neg hname]
          rw [List.filterMap_cons, hp]
          simpa using ih
      · rw [if_pos (by omega)]
        have hp : parseStreetLine line = none := by
          simp only [parseStreetLine, if_neg h10]
        rw [List.filterMap_cons, hp]
        exact ih
  have hc : ∀ lines : List Str,
      (loadCityLines lines).1 = lines.filterMap parseCityLine := by
    intro lines
    induction lines with
    | nil => simp [loadCityLines]
    | cons line rest ih =>
      simp only [loadCityLines]
      by_cases h10 : (line.splitOn ';').length = 10
      · rw [if_neg (by omega)]
        by_cases hname : ((line.splitOn ';').map cleanField).getD 6 [] = []
        · rw [if_pos hname]
          have hp : parseCityLine line = none := by
            simp only [parseCityLine, if_pos h10, if_pos hname]
          rw [List.filterMap_cons, hp]
          exact ih
        · rw [if_neg hname]
          have hp : parseCityLine line =
              some (mkCityRecord ((line.splitOn ';').map cleanField)) := by
            simp only [parseCityLine, if_pos h10, if_neg hname]
          rw [List.filterMap_cons, hp]
          simpa using ih
      · rw [if_pos (by omega)]
        have hp : parseCityLine line = none := by
          simp only [parseCityLine, if_neg h10]
        rw [List.filterMap_cons, hp]
        exact ih
  refine ⟨hs, hc, ?_, ?_, fun data => hs _, fun data => hc _⟩
  · intro line
    by_cases h10 : (line.splitOn ';').length = 10
    · by_cases hname : cleanField ((line.splitOn ';').getD 7 []) = []
      · have hmap : ((line.splitOn ';').map cleanField).getD 7 [] = [] := by
          rw [getD_map_clean _ 7 (by omega), hname]
        simp [parseStreetLine, h10, hmap, hname]
      · have hmap : ¬ ((line.splitOn ';').map cleanField).getD 7 [] = [] := by
          rw [getD_map_clean _ 7 (by omega)]
          exact hname
        simp [parseStreetLine, h10, hmap, hname]
    · simp [parseStreetLine, h10]
  · intro line
    by_cases h10 : (line.splitOn ';').length = 10
    · by_cases hname : cleanField ((line.splitOn ';').getD 6 []) = []
      · have hmap : ((line.splitOn ';').map cleanField).getD 6 [] = [] := by
          rw [getD_map_clean _ 6 (by omega), hname]
        simp [parseCityLine, h10, hmap, hname]
      · have hmap : ¬ ((line.splitOn ';').map cleanField).getD 6 [] = [] := by
          rw [getD_map_clean _ 6 (by omega)]
          exact hname
        simp [parseCityLine, h10, hmap, hname]
    · simp [parseCityLine, h10]

/-- C4: empty-query semantics are asymmetric: street search returns the
empty sequence for an empty query (its early return even precedes the
limit allocation), while city search counts every record that passes the
administrative filters as a match. -/
theorem empty_query_asymmetry :
    (∀ (svc : AutocompleteService) (limit : Int), SearchStreets svc [] limit = some [])
    ∧ (∀ c : CityRecord, cityMatches [] c = true)
    ∧ (∀ (cities : List CityRecord) (w p g : Int),
        cities.filter (fun c =>
            passFilters w p g c && cityMatches (toLowerStr (trimSpace [])) c) =
          cities.filter (fun c => passFilters w p g c)) := by
  refine ⟨?_, ?_, ?_⟩
  · intro svc limit
    unfold SearchStreets
    rw [if_pos rfl]
  · intro c
    simp [cityMatches]
  · intro cities w p g
    apply List.filter_congr
    intro x hx
    have h0 : toLowerStr (trimSpace ([] : Str)) = [] := rfl
    rw [h0]
    simp [cityMatches]

/-- C5: the woj/pow/gmi arguments of city search filter conjunctively:
a non-positive value imposes no constraint and a positive value forces
exact equality on the corresponding field of every returned record. -/
theorem city_filters_conjunctive :
    (∀ (w p g : Int) (c : CityRecord), passFilters w p g c = true ↔
        ((0 < w → c.WOJ = w) ∧ (0 < p → c.POW = p) ∧ (0 < g → c.GMI = g)))
    ∧ ∀ (svc : AutocompleteService) (q : Str) (w p g limit : Int)
        (res : List CityRecord), SearchCities svc q w p g limit = some res →
          ∀ r ∈ res, (0 < w → r.WOJ = w) ∧ (0 < p → r.POW = p) ∧ (0 < g → r.GMI = g) := by
  have hiff : ∀ (w p g : Int) (c : CityRecord), passFilters w p g c = true ↔
      ((0 < w → c.WOJ = w) ∧ (0 < p → c.POW = p) ∧ (0 < g → c.GMI = g)) := by
    intro w p g c
    unfold passFilters
    simp only [Bool.and_eq_true, Bool.not_eq_true', Bool.and_eq_false_iff,
      decide_eq_false_iff_not, decide_eq_true_eq, not_lt, not_not]
    constructor
    · intro h
      refine ⟨fun hw => ?_, fun hp => ?_, fun hg => ?_⟩
      · rcases h.1.1 with h' | h'
        · omega
        · exact h'
      · rcases h.1.2 with h' | h'
        · omega
        · exact h'
      · rcases h.2 with h' | h'
        · omega
        · exact h'
    · intro h
      refine ⟨⟨?_, ?_⟩, ?_⟩
      · by_cases hw : 0 < w
        · exact Or.inr (h.1 hw)
        · exact Or.inl (by omega)
      · by_cases hp : 0 < p
        · exact Or.inr (h.2.1 hp)
        · exact Or.inl (by omega)
      · by_cases hg : 0 < g
        · exact Or.inr (h.2.2 hg)
        · exact Or.inl (by omega)
  refine ⟨hiff, ?_⟩
  intro svc q w p g limit res hres r hr
  have hform := SearchCities_eq hres
  rw [hform, List.mem_mergeSort] at hr
  have hr2 := (dedupKey_mem (List.mem_of_mem_take hr)).1
  rw [List.mem_filter, Bool.and_eq_true] at hr2
  exact (hiff w p g r).1 hr2.2.1

unseal List.merge List.mergeSort natDigits in
theorem city_filters_conjunctive_witness : cA.WOJ = 12 :=
  (city_filters_conjunctive.2 svcW ("krak".toList) 12 0 0 5 [cA, cC] (by decide) cA
    (by decide)).1 (by decide)

/-- C2: for a non-empty query, street search returns at most `limit`
records, every returned record's lowercased primary name contains the
lowercased trimmed query as a substring, and every returned prefix match
precedes every returned substring-only match. -/
theorem searchStreets_matching_spec :
    ∀ (svc : AutocompleteService) (q : Str) (limit : Int) (res : List StreetRecord),
      q ≠ [] → SearchStreets svc q limit = some res →
        res.length ≤ limit.toNat
        ∧ (∀ r ∈ res, strContains (toLowerStr r.NAZWA1) (toLowerStr (trimSpace q)) = true)
        ∧ res.Pairwise (fun a b =>
            (toLowerStr (trimSpace q)).isPrefixOf (toLowerStr b.NAZWA1) = true →
              (toLowerStr (trimSpace q)).isPrefixOf (toLowerStr a.NAZWA1) = true) := by
  intro svc q limit res hq hres
  have hform := SearchStreets_eq hq hres
  refine ⟨?_, ?_, ?_⟩
  · rw [hform, List.length_mergeSort]
    exact List.length_take_le _ _
  · intro r hr
    rw [hform, List.mem_mergeSort] at hr
    have hr2 := (dedupKey_mem (List.mem_of_mem_take hr)).1
    rw [List.mem_filter] at hr2
    have hm := hr2.2
    unfold streetMatches at hm
    rw [Bool.or_eq_true] at hm
    rcases hm with hm | hm
    · exact strContains_of_isPrefixOf hm
    · exact hm
  · rw [hform]
    have hs := List.sorted_mergeSort
      (fun a b c => streetLe_trans (toLowerStr (trimSpace q)) a b c)
      (fun a b => streetLe_total (toLowerStr (trimSpace q)) a b)
      ((dedupKey (fun st => st.FullName)
        (svc.streets.filter (streetMatches (toLowerStr (trimSpace q)))) []).take limit.toNat)
    refine hs.imp ?_
    intro a b hab hpb
    by_cases hpa : (toLowerStr (trimSpace q)).isPrefixOf (toLowerStr a.NAZWA1) = true
    · exact hpa
    · exfalso
      have hpa' : (toLowerStr (trimSpace q)).isPrefixOf (toLowerStr a.NAZWA1) = false :=
        Bool.eq_false_iff.2 hpa
      have hlt : streetLt (toLowerStr (trimSpace q)) b a = true := by
        simp [streetLt, groupLt, hpb, hpa']
      simp [streetLe, hlt] at hab

unseal List.merge List.mergeSort natDigits in
theorem searchStreets_matching_spec_witness :
    ([sA, sC] : List StreetRecord).length ≤ (10 : Int).toNat :=
  (searchStreets_matching_spec svcW ("chop".toList) 10 [sA, sC]
    (by decide) (by decide)).1

unseal List.merge List.mergeSort natDigits in
/-- C6 counterexample: two cities sharing a name in different
voivodeships both survive the (name, woj, pow, gmi) dedup, so the
empty-query result is not strictly ascending by name. -/
theorem searchCities_empty_strict_counterexample :
    SearchCities svc6 [] 0 0 0 5 = some [c6a, c6b] ∧
    ¬ List.Pairwise (fun a b : CityRecord => strLt a.NAZWA b.NAZWA = true) [c6a, c6b] :=
  ⟨by decide, by decide⟩

/-- C6 (amended): with an empty query and no filters, city search returns
at most `limit` records ordered non-decreasingly by name under
case-sensitive byte order; the order is strict only between distinct
names, since equal names in distinct administrative units both survive
deduplication. -/
theorem searchCities_empty_sorted :
    ∀ (svc : AutocompleteService) (limit : Int) (res : List CityRecord),
      SearchCities svc [] 0 0 0 limit = some res →
        res.length ≤ limit.toNat ∧
        res.Pairwise (fun a b => strLt b.NAZWA a.NAZWA = false) := by
  intro svc limit res hres
  have hform := SearchCities_eq hres
  refine ⟨by rw [hform, List.length_mergeSort]; exact List.length_take_le _ _, ?_⟩
  rw [hform]
  have hs := List.sorted_mergeSort
    (fun a b c => cityLe_trans (toLowerStr (trimSpace [])) a b c)
    (fun a b => cityLe_total (toLowerStr (trimSpace [])) a b)
    ((dedupKey cityKey (svc.cities.filter (fun c =>
      passFilters 0 0 0 c && cityMatches (toLowerStr (trimSpace [])) c)) []).take limit.toNat)
  refine hs.imp ?_
  intro a b hab
  simpa [cityLe, cityLt] using hab

unseal List.merge List.mergeSort natDigits in
theorem searchCities_empty_sorted_witness :
    ([c6a, c6b] : List CityRecord).length ≤ (5 : Int).toNat :=
  (searchCities_empty_sorted svc6 5 [c6a, c6b] (by decide)).1

unseal List.merge List.mergeSort natDigits in
/-- C9 counterexample: with limit 2, the second record (a duplicate
display name) is dropped by dedup without consuming a limit slot, so the
third record is still collected; under the claimed raw-match counting the
scan would have stopped before it. -/
theorem scan_limit_counterexample :
    SearchStreets svc9 (['x']) 2 = some [r9a, r9c] ∧
    (scanRawLimit (streetMatches (toLowerStr (trimSpace (['x'])))) (fun st => st.FullName) 2
        svc9.streets [] [] 0).mergeSort (streetLe (toLowerStr (trimSpace (['x'])))) = [r9a] ∧
    ([r9a, r9c] : List StreetRecord) ≠ [r9a] :=
  ⟨by decide, by decide, by decide⟩

/-- C9 (amended): the street scan proceeds in stored order and stops once
`limit` deduplicated records have been collected — a match dropped by
deduplication does not count toward the limit.  The pre-sort collection
is exactly the first `limit` elements of the first-occurrence dedup of
the matches in stored order. -/
theorem scan_limit_dedup :
    ∀ (svc : AutocompleteService) (q : Str) (limit : Int) (res : List StreetRecord),
      q ≠ [] → SearchStreets svc q limit = some res →
        res = ((dedupKey (fun st => st.FullName)
          (svc.streets.filter (streetMatches (toLowerStr (trimSpace q)))) []).take
            limit.toNat).mergeSort (streetLe (toLowerStr (trimSpace q))) := by
  intro svc q limit res hq hres
  exact SearchStreets_eq hq hres

unseal List.merge List.mergeSort natDigits in
theorem scan_limit_dedup_witness :
    ([r9a, r9c] : List StreetRecord) = ((dedupKey (fun st => st.FullName)
        (svc9.streets.filter (streetMatches (toLowerStr (trimSpace (['x']))))) []).take
          (2 : Int).toNat).mergeSort (streetLe (toLowerStr (trimSpace (['x'])))) :=
  scan_limit_dedup svc9 (['x']) 2 [r9a, r9c] (by decide) (by decide)

/-- C10: a whitespace-only query is not treated as empty: it trims to the
empty string, which every primary name matches, so with a positive limit
the result is the first `limit` deduplicated street records in storage
order (returned in ranked order), not the empty sequence. -/
theorem whitespace_query_not_empty :
    ∀ (svc : AutocompleteService) (ws : Str) (limit : Int),
      ws ≠ [] → (∀ c ∈ ws, isGoSpace c = true) → 1 ≤ limit →
        (SearchStreets svc ws limit).isSome = true ∧
        ∀ res, SearchStreets svc ws limit = some res →
          res.Perm ((dedupKey (fun st => st.FullName) svc.streets []).take limit.toNat) ∧
          (svc.streets ≠ [] → res ≠ []) := by
  intro svc ws limit hws hall hl
  have htrim : trimSpace ws = [] := by
    unfold trimSpace
    rw [List.dropWhile_eq_nil_iff.2 hall]
    simp
  have hfilter : svc.streets.filter (streetMatches (toLowerStr (trimSpace ws))) =
      svc.streets := by
    rw [List.filter_eq_self]
    intro a ha
    rw [htrim]
    unfold streetMatches
    simp [toLowerStr, List.isPrefixOf_iff_prefix]
  constructor
  · unfold SearchStreets
    rw [if_neg hws, if_neg (by omega)]
    rfl
  · intro res hres
    have hform := SearchStreets_eq hws hres
    rw [hfilter] at hform
    constructor
    · rw [hform]
      exact List.mergeSort_perm _ _
    · intro hne hnil
      rw [hform] at hnil
      cases hstreets : svc.streets with
      | nil => exact hne hstreets
      | cons s0 srest =>
        rw [hstreets] at hnil
        have hd : dedupKey (fun st => st.FullName) (s0 :: srest) [] =
            s0 :: dedupKey (fun st => st.FullName) srest [s0.FullName] := by
          simp [dedupKey]
        rw [hd] at hnil
        have hts : limit.toNat = (limit.toNat - 1) + 1 := by omega
        rw [hts, List.take_succ_cons] at hnil
        have hlen := @List.length_mergeSort _ (streetLe (toLowerStr (trimSpace ws)))
          (s0 :: (dedupKey (fun st => st.FullName) srest [s0.FullName]).take
            (limit.toNat - 1))
        rw [hnil] at hlen
        simp at hlen

unseal List.merge List.mergeSort natDigits in
theorem whitespace_query_not_empty_witness :
    (SearchStreets svc9 ([' ']) 2).isSome = true ∧
    ([r9a, r9c] : List StreetRecord).Perm
      ((dedupKey (fun st => st.FullName) svc9.streets []).take (2 : Int).toNat) ∧
    (svc9.streets ≠ [] → ([r9a, r9c] : List StreetRecord) ≠ []) :=
  ⟨(whitespace_query_not_empty svc9 ([' ']) 2 (by decide) (by decide) (by decide)).1,
   (whitespace_query_not_empty svc9 ([' ']) 2 (by decide) (by decide)
     (by decide)).2 [r9a, r9c] (by decide)⟩

/-- C7: on a dataset all of whose records carry a non-empty primary name
(true of every loader-produced dataset), `GetGMIForStreet` is
deterministic, strictly sorted by (woj, pow, gmi) — hence free of
duplicate triples — and contains exactly one entry for every distinct
triple of a record whose primary name equals the trimmed query
case-insensitively. -/
theorem gmi_for_street_spec :
    ∀ (svc : AutocompleteService) (name : Str),
      (∀ r ∈ svc.streets, r.NAZWA1 ≠ []) →
        GetGMIForStreet svc name = GetGMIForStreet svc name
        ∧ (GetGMIForStreet svc name).Pairwise (fun a b => gmiLt a b = true)
        ∧ ∀ t : GMIEntry, t ∈ GetGMIForStreet svc name ↔
            ∃ r ∈ svc.streets, toLowerStr r.NAZWA1 = toLowerStr (trimSpace name) ∧
              r.WOJ = t.woj ∧ r.POW = t.pow ∧ r.GMI = t.gmi := by
  intro svc name hne
  by_cases hn : trimSpace name = []
  · have hres : GetGMIForStreet svc name = [] := by
      unfold GetGMIForStreet
      rw [if_pos hn]
    refine ⟨rfl, ?_, ?_⟩
    · rw [hres]
      exact List.Pairwise.nil
    · intro t
      rw [hres]
      simp only [List.not_mem_nil, false_iff]
      rintro ⟨r, hr, heq, -, -, -⟩
      rw [hn] at heq
      simp only [toLowerStr, List.map_nil] at heq
      exact hne r hr (List.map_eq_nil_iff.1 heq)
  · have hres : GetGMIForStreet svc name =
        ((dedupKey (fun st => gmiKey st.WOJ st.POW st.GMI)
          (svc.streets.filter (fun st =>
            decide (toLowerStr st.NAZWA1 = toLowerStr (trimSpace name)))) []).map
          (fun st => ⟨st.WOJ, st.POW, st.GMI⟩)).mergeSort gmiLe := by
      unfold GetGMIForStreet
      rw [if_neg hn, gmiLoop_eq, gmiDedup_eq_map]
      simp
    refine ⟨rfl, ?_, ?_⟩
    · rw [hres]
      have hs := List.sorted_mergeSort (fun a b c => gmiLe_trans a b c)
        (fun a b => gmiLe_total a b)
        ((dedupKey (fun st => gmiKey st.WOJ st.POW st.GMI)
          (svc.streets.filter (fun st =>
            decide (toLowerStr st.NAZWA1 = toLowerStr (trimSpace name)))) []).map
          (fun st => ⟨st.WOJ, st.POW, st.GMI⟩))
      have hk : ((dedupKey (fun st => gmiKey st.WOJ st.POW st.GMI)
          (svc.streets.filter (fun st =>
            decide (toLowerStr st.NAZWA1 = toLowerStr (trimSpace name)))) []).map
          (fun st => (⟨st.WOJ, st.POW, st.GMI⟩ : GMIEntry))).Pairwise
            (fun x y => gmiKey x.woj x.pow x.gmi ≠ gmiKey y.woj y.pow y.gmi) := by
        rw [List.pairwise_map]
        exact dedupKey_pairwise _ _
      have hk2 := (List.Perm.pairwise_iff
        (fun h he => h he.symm)
        (List.mergeSort_perm ((dedupKey (fun st => gmiKey st.WOJ st.POW st.GMI)
          (svc.streets.filter (fun st =>
            decide (toLowerStr st.NAZWA1 = toLowerStr (trimSpace name)))) []).map
          (fun st => (⟨st.WOJ, st.POW, st.GMI⟩ : GMIEntry))) gmiLe)).2 hk
      refine (hs.and hk2).imp ?_
      intro a b h
      obtain ⟨hab, hkne⟩ := h
      have hcomp : ¬ (a.woj = b.woj ∧ a.pow = b.pow ∧ a.gmi = b.gmi) := by
        intro hc
        exact hkne (by rw [hc.1, hc.2.1, hc.2.2])
      have hnlt : gmiLt b a = false := by
        simpa [gmiLe] using hab
      have hnba : ¬ (b.woj < a.woj ∨ (b.woj = a.woj ∧
          (b.pow < a.pow ∨ (b.pow = a.pow ∧ b.gmi < a.gmi)))) := by
        intro hcon
        exact absurd (gmiLt_iff.2 hcon) (by simp [hnlt])
      exact gmiLt_iff.2 (by omega)
    · intro t
      rw [hres, List.mem_mergeSort, List.mem_map]
      constructor
      · rintro ⟨r, hr, rfl⟩
        have hm := dedupKey_mem hr
        rw [List.mem_filter] at hm
        obtain ⟨⟨hr1, hr2⟩, -⟩ := hm
        rw [decide_eq_true_eq] at hr2
        exact ⟨r, hr1, hr2, rfl, rfl, rfl⟩
      · rintro ⟨r, hr, heq, h1, h2, h3⟩
        have hf : r ∈ svc.streets.filter (fun st =>
            decide (toLowerStr st.NAZWA1 = toLowerStr (trimSpace name))) := by
          rw [List.mem_filter]
          exact ⟨hr, by simp [heq]⟩
        obtain ⟨y, hy, hkey⟩ := dedupKey_complete hf (List.not_mem_nil _)
        obtain ⟨e1, e2, e3⟩ := gmiKey_inj hkey
        refine ⟨y, hy, ?_⟩
        cases t
        simp only [GMIEntry.mk.injEq]
        exact ⟨e1.trans h1, e2.trans h2, e3.trans h3⟩

unseal List.merge List.mergeSort natDigits in
theorem gmi_for_street_spec_witness :
    (GetGMIForStreet svcW ("Chopina".toList)).Pairwise (fun a b => gmiLt a b = true) :=
  (gmi_for_street_spec svcW ("Chopina".toList) (by decide)).2.1

/-- C8: deduplication — a street result contains at most one record per
display name, namely the first matching record in storage order; a city
result contains at most one record per (name, woj, pow, gmi) tuple. -/
theorem search_dedup_spec :
    (∀ (svc : AutocompleteService) (q : Str) (limit : Int) (res : List StreetRecord),
        q ≠ [] → SearchStreets svc q limit = some res →
          (res.map (fun r => r.FullName)).Nodup ∧
          ∀ r ∈ res, (svc.streets.filter (streetMatches (toLowerStr (trimSpace q)))).find?
              (fun y => decide (y.FullName = r.FullName)) = some r)
    ∧ (∀ (svc : AutocompleteService) (q : Str) (w p g limit : Int) (res : List CityRecord),
        SearchCities svc q w p g limit = some res →
          (res.map (fun c => (c.NAZWA, c.WOJ, c.POW, c.GMI))).Nodup) := by
  constructor
  · intro svc q limit res hq hres
    have hform := SearchStreets_eq hq hres
    constructor
    · show List.Pairwise _ _
      rw [List.pairwise_map, hform]
      have hperm := List.mergeSort_perm ((dedupKey (fun st => st.FullName)
        (svc.streets.filter (streetMatches (toLowerStr (trimSpace q)))) []).take
          limit.toNat) (streetLe (toLowerStr (trimSpace q)))
      rw [List.Perm.pairwise_iff (fun h he => h he.symm) hperm]
      exact List.Pairwise.sublist (List.take_sublist _ _) (dedupKey_pairwise _ _)
    · intro r hr
      rw [hform, List.mem_mergeSort] at hr
      exact dedupKey_find (List.mem_of_mem_take hr)
  · intro svc q w p g limit res hres
    have hform := SearchCities_eq hres
    show List.Pairwise _ _
    rw [List.pairwise_map, hform]
    have hperm := List.mergeSort_perm ((dedupKey cityKey (svc.cities.filter (fun c =>
      passFilters w p g c && cityMatches (toLowerStr (trimSpace q)) c)) []).take
        limit.toNat) (cityLe (toLowerStr (trimSpace q)))
    rw [List.Perm.pairwise_iff (fun h he => h he.symm) hperm]
    have hk := List.Pairwise.sublist (List.take_sublist limit.toNat _)
      (@dedupKey_pairwise _ cityKey
        (svc.cities.filter (fun c =>
          passFilters w p g c && cityMatches (toLowerStr (trimSpace q)) c)) [])
    refine hk.imp ?_
    intro a b hkne hteq
    apply hkne
    have h1 : a.NAZWA = b.NAZWA := congrArg Prod.fst hteq
    have h2 : a.WOJ = b.WOJ := congrArg (fun x => x.2.1) hteq
    have h3 : a.POW = b.POW := congrArg (fun x => x.2.2.1) hteq
    have h4 : a.GMI = b.GMI := congrArg (fun x => x.2.2.2) hteq
    unfold cityKey gmiKey
    rw [h1, h2, h3, h4]

unseal List.merge List.mergeSort natDigits in
theorem search_dedup_spec_witness :
    (([sA, sC] : List StreetRecord).map (fun r => r.FullName)).Nodup ∧
    (svcW.streets.filter (streetMatches (toLowerStr (trimSpace ("chop".toList))))).find?
      (fun y => decide (y.FullName = sA.FullName)) = some sA :=
  ⟨(search_dedup_spec.1 svcW ("chop".toList) 10 [sA, sC] (by decide) (by decide)).1,
   (search_dedup_spec.1 svcW ("chop".toList) 10 [sA, sC] (by decide) (by decide)).2 sA
     (by decide)⟩
